import Mathlib

/-!
# web-jingzi (`src/server.rs`) — a shallow Lean embedding

This file embeds the request/response pipeline of the reverse proxy in
`src/server.rs` and proves/refutes the frozen claims about it.

Conventions of the embedding:
* Rust strings (`&str`, `String`) are modelled as Lean `String` / `List Char`;
  where Rust operates on UTF-8 *bytes* (byte length, byte slicing) we compute
  byte counts from the characters via `charSize` (the UTF-8 width of a scalar
  value), so byte-boundary panics are representable.
* Machine integers (`u16` ports) are `Nat` with an explicit `< 65536` check at
  the only place the source checks it (URL parsing).
* Fallible operations return `Option`/`Except`; a Rust panic is `Option.none`
  at the outermost level of the affected function.
* I/O (DNS resolution, TCP/SOCKS5/TLS connections, the HTTP/1 exchange, and
  the compression codecs) is modelled by explicit oracle parameters, so the
  pure orchestration code of `server.rs` is embedded exactly while the
  external collaborators stay universally quantified in the theorems.
-/

/-! ## UTF-8 byte arithmetic -/

/-- UTF-8 byte width of a Unicode scalar value (model of `char::len_utf8`). -/
def charSize (c : Char) : Nat :=
  if c.toNat < 128 then 1
  else if c.toNat < 2048 then 2
  else if c.toNat < 65536 then 3
  else 4

/-- UTF-8 byte length of a character list (model of `str::len`, in bytes). -/
def utf8Len (l : List Char) : Nat := (l.map charSize).sum

/-- UTF-8 encoding of one scalar value as bytes. -/
def utf8EncodeChar (c : Char) : List Nat :=
  let n := c.toNat
  if n < 128 then [n]
  else if n < 2048 then [192 + n / 64, 128 + n % 64]
  else if n < 65536 then [224 + n / 4096, 128 + (n / 64) % 64, 128 + n % 64]
  else [240 + n / 262144, 128 + (n / 4096) % 64, 128 + (n / 64) % 64, 128 + n % 64]

/-- UTF-8 encoding of a character list (model of `str::as_bytes`). -/
def strBytes (l : List Char) : List Nat := (l.map utf8EncodeChar).flatten

/-- Strict UTF-8 decoding of a byte list (model of `String::from_utf8` /
`read_to_string`): rejects stray continuation bytes, overlong forms,
surrogates and out-of-range scalars. -/
def utf8Decode : List Nat → Option (List Char)
  | [] => some []
  | b :: rest =>
    if b < 128 then
      (utf8Decode rest).map (Char.ofNat b :: ·)
    else if b < 194 then
      none
    else if b < 224 then
      match rest with
      | b1 :: rest1 =>
        if 128 ≤ b1 ∧ b1 < 192 then
          (utf8Decode rest1).map (Char.ofNat ((b - 192) * 64 + (b1 - 128)) :: ·)
        else none
      | [] => none
    else if b < 240 then
      match rest with
      | b1 :: b2 :: rest2 =>
        if (128 ≤ b1 ∧ b1 < 192) ∧ (128 ≤ b2 ∧ b2 < 192) ∧
            (b = 224 → 160 ≤ b1) ∧ (b = 237 → b1 < 160) then
          (utf8Decode rest2).map
            (Char.ofNat ((b - 224) * 4096 + (b1 - 128) * 64 + (b2 - 128)) :: ·)
        else none
      | _ => none
    else if b < 245 then
      match rest with
      | b1 :: b2 :: b3 :: rest3 =>
        if (128 ≤ b1 ∧ b1 < 192) ∧ (128 ≤ b2 ∧ b2 < 192) ∧ (128 ≤ b3 ∧ b3 < 192) ∧
            (b = 240 → 144 ≤ b1) ∧ (b = 244 → b1 < 144) then
          (utf8Decode rest3).map
            (Char.ofNat ((b - 240) * 262144 + (b1 - 128) * 4096 +
              (b2 - 128) * 64 + (b3 - 128)) :: ·)
        else none
      | _ => none
    else none

/-! ## Generic string helpers (models of `str` methods used by the source) -/

/-- True when (`leadsWith pat l`) `pat` is an initial run of `l`
(model of `str::starts_with` on character lists). -/
def leadsWith : List Char → List Char → Bool
  | [], _ => true
  | _ :: _, [] => false
  | p :: ps, c :: cs => p == c && leadsWith ps cs

/-- True when (`containsSeq pat l`) `pat` occurs contiguously in `l`
(model of `str::contains` / `str::find(..).is_some()`). -/
def containsSeq (pat : List Char) : List Char → Bool
  | [] => leadsWith pat []
  | c :: rest => leadsWith pat (c :: rest) || containsSeq pat rest

/-- One fuel-indexed pass of `str::replace`: replaces the leftmost,
non-overlapping occurrences of `pat` by `rep`, scanning left to right.
The fuel only serves termination; `replaceAll` supplies enough of it. -/
def replaceAllF (pat rep : List Char) : Nat → List Char → List Char
  | _, [] => []
  | 0, l => l
  | fuel + 1, c :: rest =>
    if leadsWith pat (c :: rest) then
      rep ++ replaceAllF pat rep fuel (List.drop (pat.length - 1) rest)
    else
      c :: replaceAllF pat rep fuel rest

/-- Model of Rust `str::replace pat -> rep` for a nonempty pattern.
(The source only ever replaces `host_with_port` strings, whose host part is
nonempty; the empty-pattern behaviour of Rust is not modelled.) -/
def replaceAll (pat rep l : List Char) : List Char := replaceAllF pat rep l.length l

/-- Decimal digit accumulation, model of the `url` crate's port parsing. -/
def parseNum : Nat → List Char → Option Nat
  | acc, [] => some acc
  | acc, c :: rest =>
    if 48 ≤ c.toNat ∧ c.toNat ≤ 57 then parseNum (acc * 10 + (c.toNat - 48)) rest
    else none

/-- ASCII lowercase of one character; model of `str::to_lowercase` restricted
to the comparison the source performs.  Rust's full Unicode lowercasing and
this function agree on whether a string equals `"domain="`: no non-ASCII
scalar has a full lowercase equal to one of `d o m a i n =` (U+0130 lowers to
a two-character sequence, U+212A lowers to `k`, etc.). -/
def asciiLower (c : Char) : Char :=
  if 65 ≤ c.toNat ∧ c.toNat ≤ 90 then Char.ofNat (c.toNat + 32) else c

/-- Unicode `White_Space` test, the predicate behind Rust's
`str::trim_start`. -/
def isRustWs (c : Char) : Bool :=
  let n := c.toNat
  (9 ≤ n ∧ n ≤ 13) || n = 32 || n = 133 || n = 160 || n = 5760 ||
    (8192 ≤ n ∧ n ≤ 8202) || n = 8232 || n = 8233 || n = 8239 || n = 8287 || n = 12288

/-- Model of `str::trim_start`. -/
def trimStartWs (l : List Char) : List Char := l.dropWhile isRustWs

/-- Slicing prefix: `takeBytes n l` is the characters making up the first `n` UTF-8 bytes of
`l`, or `none` when byte position `n` falls strictly inside a character —
exactly the situation in which the byte slice `&s[..n]` panics in Rust. -/
def takeBytes : Nat → List Char → Option (List Char)
  | 0, _ => some []
  | _ + 1, [] => none
  | n + 1, c :: rest =>
    if charSize c ≤ n + 1 then (takeBytes (n + 1 - charSize c) rest).map (c :: ·)
    else none

/-- Model of `str::split(';')`: the list of `;`-separated chunks, separators
dropped, empty chunks kept. -/
def splitSemi : List Char → List (List Char)
  | [] => [[]]
  | c :: rest =>
    if c = ';' then [] :: splitSemi rest
    else
      match splitSemi rest with
      | [] => [[c]]
      | s :: ss => (c :: s) :: ss

/-- Model of `[&str]::join(";")`. -/
def joinSemi (segs : List (List Char)) : List Char := List.intercalate [';'] segs

/-! ## `Target` (src/server.rs lines 18–92) -/

/-- Model of `struct Target` of the source: one configured origin.  `port` is the
`u16` of the source as a `Nat`; the parser enforces `< 65536`. -/
structure Target where
  scheme : String
  host : String
  port : Nat
deriving DecidableEq, Repr

/-- Model of `Target::host_with_port` (src/server.rs lines 60–68): the literal
substring searched for during rewriting; the port is omitted exactly when it
is the scheme default. -/
def Target.host_with_port (t : Target) : String :=
  if (t.scheme = "http" ∧ t.port = 80) ∨ (t.scheme = "https" ∧ t.port = 443) then t.host
  else t.host ++ ":" ++ Nat.repr t.port

/-- Characters admitted in a (canonical, already lowercased) registrable
domain; the model of `Url::parse` below accepts exactly these in the host. -/
def validHostChar (c : Char) : Bool :=
  (97 ≤ c.toNat ∧ c.toNat ≤ 122) || (48 ≤ c.toNat ∧ c.toNat ≤ 57) || c = '.' || c = '-'

/-- Lowercase ASCII letter, the characters admitted in a scheme by this
model of `Url::parse`. -/
def schemeChar (c : Char) : Bool := 97 ≤ c.toNat ∧ c.toNat ≤ 122

/-- Scheme-default port (model of `Url::port_or_known_default`'s table):
80 for http, 443 for https, nothing otherwise. -/
def defaultPortFor (scheme : String) : Option Nat :=
  if scheme = "http" then some 80
  else if scheme = "https" then some 443
  else none

/-- Split a character list at the first `"://"`; returns the part before and
after it.  Part of the model of `Url::parse`. -/
def findSchemeSep : List Char → Option (List Char × List Char)
  | [] => none
  | c :: rest =>
    if c = ':' ∧ leadsWith ['/', '/'] rest then some ([], rest.drop 2)
    else (findSchemeSep rest).map (fun pr => (c :: pr.1, pr.2))

/-- Split an authority at the first `':'`: host part, and the port text when
a colon is present.  Part of the model of `Url::parse`. -/
def splitHostPort : List Char → List Char × Option (List Char)
  | [] => ([], none)
  | c :: rest =>
    if c = ':' then ([], some rest)
    else ((c :: (splitHostPort rest).1, (splitHostPort rest).2))

/-- Model of `Url::parse` restricted to authority-form origin specifications
(`scheme://host[:port]`) with canonical lowercase hosts — the inputs the
configuration supplies.  Yields scheme, host and `port_or_known_default`;
fails when the host is absent/ill-formed, the port text is not a number that
fits a `u16`, or (port absent) the scheme has no known default. -/
def urlParseParts (l : List Char) : Option Target :=
  match findSchemeSep l with
  | none => none
  | some (sch, rest) =>
    if sch ≠ [] ∧ sch.all schemeChar then
      match splitHostPort rest with
      | (host, portPart) =>
        if host ≠ [] ∧ host.all validHostChar then
          match (match portPart with
                 | none => defaultPortFor (String.mk sch)
                 | some [] => defaultPortFor (String.mk sch)
                 | some ds =>
                   match parseNum 0 ds with
                   | some p => if p < 65536 then some p else none
                   | none => none) with
          | some p => some ⟨String.mk sch, String.mk host, p⟩
          | none => none
        else none
    else none

/-- Model of `impl TryFrom<&str> for Target` (src/server.rs lines 71–91): prefix
`https://` when the spec has no scheme separator, parse as a URL, and keep
scheme, host and `port_or_known_default`. -/
def Target.try_from (s : String) : Option Target :=
  if containsSeq [':', '/', '/'] s.data then urlParseParts s.data
  else urlParseParts ("https://".data ++ s.data)

/-! ## Requests and URLs (model of `http_types::{Request, Url}`) -/

/-- The part of `http_types::Url` (the `url` crate) the source touches.
`port` stores the *explicit* port only: the crate normalizes a port equal to
the scheme default away (both when parsing and in `set_port`). -/
structure Url where
  scheme : String
  host : Option String
  port : Option Nat
  path : String
  query : Option String
deriving DecidableEq, Repr

/-- Model of `Url::port_or_known_default` for an in-flight request URL. -/
def Url.portOrDefault (u : Url) : Option Nat :=
  match u.port with
  | some p => some p
  | none => defaultPortFor u.scheme

/-- Model of `Url::domain()`: the registrable domain of the URL's host.  In the model
an IP-literal host is represented as an absent host, so `domain` is just the
host field. -/
def Url.domain (u : Url) : Option String := u.host

/-- Model of `Url::set_scheme`.  The crate refuses a switch between special
and non-special schemes; both the client URL and every configured target of
this program are http(s), so the model succeeds exactly on http(s)-to-http(s)
changes. -/
def Url.set_scheme (u : Url) (s : String) : Option Url :=
  if (s = "http" ∨ s = "https") ∧ (u.scheme = "http" ∨ u.scheme = "https") then
    some { u with scheme := s }
  else none

/-- Model of `Url::set_host (Some h)`: fails on an ill-formed host. -/
def Url.set_host (u : Url) (h : String) : Option Url :=
  if h.data ≠ [] ∧ h.data.all validHostChar then some { u with host := some h }
  else none

/-- Model of `Url::set_port (Some p)`: fails when the URL has no host;
normalizes a scheme-default port to "no explicit port". -/
def Url.set_port (u : Url) (p : Nat) : Option Url :=
  match u.host with
  | none => none
  | some _ =>
    some { u with port := if defaultPortFor u.scheme = some p then none else some p }

/-- Header lookup (`Request::header` / `Response::header`).  Header maps are
association lists from name to one or more values (`HeaderValues`);
`http_types` lowercases names in `HeaderName` and the source only uses
lowercase literals, so names are compared literally here. -/
def getHdr : List (String × List String) → String → Option (List String)
  | [], _ => none
  | (k, w) :: rest, n => if k = n then some w else getHdr rest n

/-- First value of a header; `HeaderValues` dereferences to its first
value, which is what `.as_str()` on a `header(..)` result reads. -/
def getHdr1 (hs : List (String × List String)) (n : String) : Option String :=
  (getHdr hs n).bind List.head?

/-- Model of `insert_header`: replace the values of `n`, appending the entry when it
was absent. -/
def setHdr : List (String × List String) → String → List String → List (String × List String)
  | [], n, v => [(n, v)]
  | (k, w) :: rest, n, v =>
    if k = n then (n, v) :: rest else (k, w) :: setHdr rest n v

/-- The part of `http_types::Request` the source touches.  Further fields
(HTTP version, extensions) are never read or written by `server.rs` and are
omitted. -/
structure Request where
  method : String
  url : Url
  headers : List (String × List String)
  body : List Nat
deriving DecidableEq, Repr

/-- Model of `Target::fuse_request` (src/server.rs lines 46–58): point the request at
the target — `Host` header set to the bare host, URL scheme/host/port set to
the target's.  Each `set_*` failure is surfaced as the error message the
source attaches.  (The source inserts the header before the URL edits; the
two commute — they touch different fields — and a failed edit discards the
request, so the header is attached on the success path here.) -/
def Target.fuse_request (t : Target) (req : Request) : Except String Request :=
  match req.url.set_scheme t.scheme with
  | none => .error "set scheme error"
  | some u1 =>
    match u1.set_host t.host with
    | none => .error "empty host"
    | some u2 =>
      match u2.set_port t.port with
      | none => .error "set port error"
      | some u3 => .ok { req with headers := setHdr req.headers "host" [t.host], url := u3 }

/-! ## Responses, bodies and the transcoder (src/server.rs lines 214–260) -/

/-- Direction of `Coder` (src/server.rs lines 214–217). -/
inductive Mode where
  | de
  | en
deriving DecidableEq, Repr

/-- The three compression codes `Coder::code` recognizes. -/
inductive CodecKind where
  | gzip
  | br
  | deflate
deriving DecidableEq, Repr

/-- Which codec (`codecOf e`) a `content-encoding` value selects, if any. -/
def codecOf (e : String) : Option CodecKind :=
  if e = "gzip" then some .gzip
  else if e = "br" then some .br
  else if e = "deflate" then some .deflate
  else none

/-- A response body: raw bytes, or a streaming (de/en)coder wrapped around
another body (`Body::from_reader` around a `*Decoder`/`*Encoder`), exactly
as `Coder::set_body` nests them. -/
inductive Body where
  | raw : List Nat → Body
  | coded : Mode → CodecKind → Body → Body
deriving DecidableEq, Repr

/-- Semantics of the opaque compression codecs: what byte stream a wrapped
(de/en)coder of a given kind yields on given input, `none` meaning an I/O
error while reading.  Kept abstract — the theorems quantify over it. -/
def CodecOracle := Mode → CodecKind → List Nat → Option (List Nat)

/-- Reading a body to its end: unwrap each codec layer through the oracle. -/
def readBody (oracle : CodecOracle) : Body → Option (List Nat)
  | .raw bs => some bs
  | .coded m k b => (readBody oracle b).bind (oracle m k)

/-- The part of `http_types::Response` the source touches. -/
structure Response where
  status : Nat
  headers : List (String × List String)
  body : Body
deriving DecidableEq, Repr

/-- Model of `Coder::code` (src/server.rs lines 232–260): if the declared
`content-encoding` is a known codec, wrap the (taken) body in the matching
streaming coder; otherwise (or with no such header) only log and leave the
response unchanged. -/
def Coder.code (mode : Mode) (resp : Response) : Response :=
  match getHdr1 resp.headers "content-encoding" with
  | none => resp
  | some e =>
    match codecOf e with
    | some k => { resp with body := .coded mode k resp.body }
    | none => resp

/-- Essence (`type/subtype`) of a mime value: the model of
`Response::content_type().essence()` — parse the chunk before any `;`,
trimmed and ASCII-lowercased; fail when it is no `type/subtype` pair. -/
def mimeEssence (s : String) : Option String :=
  let t := (trimStartWs ((splitSemi s.data).headD [])).reverse.dropWhile isRustWs
  let t := t.reverse.map asciiLower
  if t ≠ [] ∧ t.contains '/' then some (String.mk t) else none

/-- Model of `Response::content_type()`: it reads the *last* `content-type` value and
parses it as a mime. -/
def contentTypeEssence (resp : Response) : Option String :=
  (getHdr resp.headers "content-type").bind (fun vs => vs.getLast?.bind mimeEssence)

/-- The content types whose bodies the forwarder rewrites
(src/server.rs lines 195–198). -/
def rewritableTypes : List String :=
  ["text/html", "text/javascript", "application/json", "application/manifest+json"]

/-! ## Content rewriting (src/server.rs lines 148–211) -/

/-- The `for (k, v) in &self.domain` replacement loop (src/server.rs
lines 150–153, 158–161, 201–203): in table order, replace each target's
`host_with_port` by its public domain.  `HashMap` iteration order is
unspecified, so the table is a list and theorems quantify over the order. -/
def rewriteHosts (table : List (String × Target)) (s : List Char) : List Char :=
  table.foldl (fun acc kv => replaceAll kv.2.host_with_port.data kv.1.data acc) s

/-- The `location` header rewrite (src/server.rs lines 148–155). -/
def rewriteLocationStep (table : List (String × Target)) (resp : Response) : Response :=
  match getHdr1 resp.headers "location" with
  | none => resp
  | some loc =>
    { resp with headers := setHdr resp.headers "location" [String.mk (rewriteHosts table loc.data)] }

/-- The `referer` header rewrite (src/server.rs lines 157–163). -/
def rewriteRefererStep (table : List (String × Target)) (resp : Response) : Response :=
  match getHdr1 resp.headers "referer" with
  | none => resp
  | some r =>
    { resp with headers := setHdr resp.headers "referer" [String.mk (rewriteHosts table r.data)] }

/-- The filter predicate on one cookie segment (src/server.rs lines 173–177):
keep the segment unless its trimmed form is longer than 7 bytes and its first
7 *bytes*, lowercased, read `domain=`.  `none` models the panic of the byte
slice `&i[..7]` when byte 7 is not a character boundary (`&&` short-circuits,
so a segment of at most 7 bytes is never sliced). -/
def segKeep (seg : List Char) : Option Bool :=
  let t := trimStartWs seg
  if utf8Len t > 7 then
    match takeBytes 7 t with
    | some pre => some (!(pre.map asciiLower = "domain=".data : Bool))
    | none => none
  else some true

/-- Run `segKeep` across the split segments, keeping those that pass;
`none` as soon as one panics (the iterator is driven left to right). -/
def keepSegs : List (List Char) → Option (List (List Char))
  | [] => some []
  | s :: rest =>
    match segKeep s with
    | none => none
    | some true => (keepSegs rest).map (s :: ·)
    | some false => keepSegs rest

/-- The per-value `set-cookie` rewrite (src/server.rs lines 170–180): split
on `;`, drop the `domain=`-prefixed segments, re-join with `;`. -/
def cookieVal (v : List Char) : Option (List Char) :=
  (keepSegs (splitSemi v)).map joinSemi

/-- The `set-cookie` header rewrite (src/server.rs lines 165–184): rewrite
every value of the header, then re-insert them all. -/
def rewriteCookieStep (resp : Response) : Option Response :=
  match getHdr resp.headers "set-cookie" with
  | none => some resp
  | some vals =>
    (vals.mapM (fun v => (cookieVal v.data).map String.mk)).map
      (fun vs => { resp with headers := setHdr resp.headers "set-cookie" vs })

/-- The body rewrite (src/server.rs lines 193–209).  When the content type
is rewritable, `body_string()` *takes* the body (leaving an empty one) and
reads it to a UTF-8 string: on success the rewritten text becomes the new
body; on failure only a log line is emitted — and the response is left with
the empty body the take produced. -/
def rewriteBodyStep (oracle : CodecOracle) (table : List (String × Target))
    (resp : Response) : Response :=
  match contentTypeEssence resp with
  | none => resp
  | some essence =>
    if rewritableTypes.contains essence then
      match (readBody oracle resp.body).bind utf8Decode with
      | some text => { resp with body := .raw (strBytes (rewriteHosts table text)) }
      | none => { resp with body := .raw [] }
    else resp

/-- The response half of `Forward::request` (src/server.rs lines 148–211):
header rewrites, the 304 early return, then decode → body rewrite → encode.
`none` propagates the cookie-segment panic. -/
def processResponse (oracle : CodecOracle) (table : List (String × Target))
    (resp : Response) : Option Response :=
  match rewriteCookieStep (rewriteRefererStep table (rewriteLocationStep table resp)) with
  | none => none
  | some r3 =>
    if r3.status = 304 then some r3
    else some (Coder.code .en (rewriteBodyStep oracle table (Coder.code .de r3)))

/-! ## The forwarding engine (src/server.rs lines 94–146, 263–265) -/

/-- Model of `http_types::Error` as the source uses it: a status plus a message. -/
structure HttpErr where
  status : Nat
  msg : String
deriving DecidableEq, Repr

/-- Model of `http_error` (src/server.rs lines 263–265): an internal-server-error
(500) response with a human-readable message. -/
def http_error (msg : String) : HttpErr := ⟨500, msg⟩

/-- Resolved socket addresses are opaque to the orchestration code. -/
def SockAddr := String
deriving instance DecidableEq, Repr for SockAddr

/-- How the upstream byte stream is established (src/server.rs
lines 127–140): a direct TCP connection to a locally resolved address, or an
unauthenticated SOCKS5 CONNECT through the relay carrying the origin *name*
and port for remote resolution. -/
inductive ConnMethod where
  | direct : SockAddr → ConnMethod
  | socksName : SockAddr → String → Nat → ConnMethod
deriving DecidableEq, Repr

/-- The relevant configuration: the optional SOCKS5 relay of `CONFIG`. -/
structure Config where
  socks5Server : Option String
deriving DecidableEq, Repr

/-- Model of `HashMap::get` over the domain table (keys are unique). -/
def lookupTable (table : List (String × Target)) (d : String) : Option Target :=
  match table.find? (fun kv => kv.1 = d) with
  | some kv => some kv.2
  | none => none

/-- The upstream exchange oracle: TLS/plain HTTP/1 round trip over an
established stream — `async_h1::connect` (plus `async_native_tls::connect`
when the scheme demands it), abstracted.  Arguments: connection method,
scheme, retargeted request. -/
def Exchange := ConnMethod → String → Request → Except HttpErr Response

/-- Model of `Forward::request` (src/server.rs lines 119–211): resolve the target
address locally (failure → 500 "invalid target"), retarget the request,
establish the stream (relay configured → SOCKS5 by name; otherwise direct),
run the exchange for http/https (any other scheme → 500 "unsupported
scheme"), then post-process the response.  `resolve`/`relayResolve` are the
name-resolution oracles; `none` from `processResponse` is the cookie panic. -/
def Forward.request (cfg : Config) (table : List (String × Target))
    (resolve : String → Nat → Option SockAddr)
    (relayResolve : String → Option SockAddr)
    (exchange : Exchange) (oracle : CodecOracle)
    (req : Request) (t : Target) : Option (Except HttpErr Response) :=
  match resolve t.host t.port with
  | none => some (.error (http_error "invalid target"))
  | some addr =>
    match t.fuse_request req with
    | .error e => some (.error (http_error e))
    | .ok req1 =>
      match (match cfg.socks5Server with
             | some srv =>
               match relayResolve srv with
               | some saddr => Except.ok (ConnMethod.socksName saddr t.host t.port)
               | none => Except.error (http_error "invalid host")
             | none => Except.ok (ConnMethod.direct addr)) with
      | .error e => some (.error e)
      | .ok m =>
        if t.scheme = "https" ∨ t.scheme = "http" then
          match exchange m t.scheme req1 with
          | .error e => some (.error e)
          | .ok resp => (processResponse oracle table resp).map .ok
        else some (.error (http_error ("unsupported scheme: " ++ t.scheme)))

/-- Model of `Forward::forward` (src/server.rs lines 107–117): extract the domain
from the request URL (absent → 500 "missing domain"), look it up in the
domain table (absent → 500 "invalid domain, check config file"), and hand
off to `Forward.request`. -/
def Forward.forward (cfg : Config) (table : List (String × Target))
    (resolve : String → Nat → Option SockAddr)
    (relayResolve : String → Option SockAddr)
    (exchange : Exchange) (oracle : CodecOracle)
    (req : Request) : Option (Except HttpErr Response) :=
  match req.url.domain with
  | none => some (.error (http_error "missing domain"))
  | some d =>
    match lookupTable table d with
    | some t => Forward.request cfg table resolve relayResolve exchange oracle req t
    | none => some (.error (http_error "invalid domain, check config file"))

/-! ## Claim-side specification predicates -/

/-- The claim's description of a removable cookie segment, stated
independently of the byte-slicing implementation: after trimming leading
whitespace, the segment's ASCII-lowercased characters start with `domain=`
and extend beyond it (the code additionally requires the strict 7-byte
length bound, which is what the equivalence theorem establishes). -/
def domainAttr (seg : List Char) : Bool :=
  (((trimStartWs seg).map asciiLower).take 7 = "domain=".data ∧
    7 < (trimStartWs seg).length : Bool)

/-! ## Helper lemmas: UTF-8 byte accounting -/

theorem charSize_pos (c : Char) : 1 ≤ charSize c := by
  unfold charSize
  split
  · exact Nat.le_refl 1
  split
  · omega
  split <;> omega

theorem charSize_of_ascii {c : Char} (h : c.toNat < 128) : charSize c = 1 := by
  unfold charSize
  rw [if_pos h]

theorem utf8Len_nil : utf8Len [] = 0 := rfl

theorem utf8Len_cons (c : Char) (l : List Char) :
    utf8Len (c :: l) = charSize c + utf8Len l := by
  simp [utf8Len]

theorem utf8Len_append (l₁ l₂ : List Char) :
    utf8Len (l₁ ++ l₂) = utf8Len l₁ + utf8Len l₂ := by
  simp [utf8Len]

theorem length_le_utf8Len : ∀ l : List Char, l.length ≤ utf8Len l
  | [] => Nat.le_refl 0
  | c :: rest => by
    rw [utf8Len_cons, List.length_cons]
    have h1 := charSize_pos c
    have h2 := length_le_utf8Len rest
    omega

theorem utf8Len_of_ascii : ∀ l : List Char, (∀ c ∈ l, c.toNat < 128) → utf8Len l = l.length
  | [], _ => rfl
  | c :: rest, h => by
    rw [utf8Len_cons, List.length_cons, charSize_of_ascii (h c (List.mem_cons_self c rest)),
      utf8Len_of_ascii rest (fun x hx => h x (List.mem_cons_of_mem c hx))]
    omega

theorem takeBytes_sound : ∀ (l : List Char) (n : Nat) (p : List Char),
    takeBytes n l = some p → ∃ q, l = p ++ q ∧ utf8Len p = n
  | l, 0, p => by
    intro h
    simp only [takeBytes, Option.some.injEq] at h
    exact ⟨l, by rw [← h]; simp, by rw [← h]; rfl⟩
  | [], n + 1, p => by
    intro h
    simp [takeBytes] at h
  | c :: rest, n + 1, p => by
    intro h
    simp only [takeBytes] at h
    by_cases hc : charSize c ≤ n + 1
    · rw [if_pos hc] at h
      rcases Option.map_eq_some'.mp h with ⟨p', hp', rfl⟩
      rcases takeBytes_sound rest (n + 1 - charSize c) p' hp' with ⟨q, hq, hlen⟩
      exact ⟨q, by rw [hq]; rfl, by rw [utf8Len_cons, hlen]; omega⟩
    · rw [if_neg hc] at h
      exact absurd h (by simp)


theorem takeBytes_zero : ∀ l : List Char, takeBytes 0 l = some []
  | [] => rfl
  | _ :: _ => rfl

theorem takeBytes_exact : ∀ (p : List Char) (q : List Char) (n : Nat),
    utf8Len p = n → takeBytes n (p ++ q) = some p
  | [], q, n => by
    intro h
    rw [utf8Len_nil] at h
    subst h
    exact takeBytes_zero q
  | c :: p', q, n => by
    intro h
    rw [utf8Len_cons] at h
    have hpos := charSize_pos c
    cases n with
    | zero => omega
    | succ m =>
      have hc : charSize c ≤ m + 1 := by omega
      show takeBytes (m + 1) (c :: (p' ++ q)) = some (c :: p')
      simp only [takeBytes, if_pos hc]
      rw [takeBytes_exact p' q (m + 1 - charSize c) (by omega)]
      rfl

theorem ascii_of_asciiLower {c x : Char} (h : asciiLower c = x) (hx : x.toNat < 128) :
    c.toNat < 128 := by
  unfold asciiLower at h
  split at h
  · omega
  · rw [h]; exact hx

/-! ## Helper lemmas: splitting, replacing, headers -/

theorem splitSemi_ne_nil : ∀ l : List Char, splitSemi l ≠ []
  | [] => by simp [splitSemi]
  | c :: rest => by
    simp only [splitSemi]
    split
    · simp
    · split <;> simp

theorem mem_of_mem_splitSemi : ∀ (l : List Char) (s : List Char),
    s ∈ splitSemi l → ∀ c ∈ s, c ∈ l := by
  intro l
  induction l with
  | nil =>
    intro s hs c hc
    simp only [splitSemi, List.mem_singleton] at hs
    rw [hs] at hc
    exact absurd hc (List.not_mem_nil c)
  | cons a rest ih =>
    intro s hs c hc
    simp only [splitSemi] at hs
    by_cases ha : a = ';'
    · rw [if_pos ha] at hs
      rcases List.mem_cons.mp hs with h | h
      · rw [h] at hc
        exact absurd hc (List.not_mem_nil c)
      · exact List.mem_cons_of_mem a (ih s h c hc)
    · rw [if_neg ha] at hs
      cases hrec : splitSemi rest with
      | nil => exact absurd hrec (splitSemi_ne_nil rest)
      | cons s' ss =>
        rw [hrec] at hs
        rcases List.mem_cons.mp hs with h | h
        · rw [h] at hc
          rcases List.mem_cons.mp hc with h' | h'
          · rw [h']
            exact List.mem_cons_self a rest
          · exact List.mem_cons_of_mem a
              (ih s' (by rw [hrec]; exact List.mem_cons_self s' ss) c h')
        · exact List.mem_cons_of_mem a
            (ih s (by rw [hrec]; exact List.mem_cons_of_mem s' h) c hc)

theorem mem_of_mem_trimStartWs {l : List Char} {c : Char} (h : c ∈ trimStartWs l) : c ∈ l :=
  (List.dropWhile_sublist isRustWs (l := l)).subset h

theorem replaceAllF_of_not_contains (pat rep : List Char) :
    ∀ (l : List Char) (fuel : Nat), containsSeq pat l = false → replaceAllF pat rep fuel l = l
  | [], fuel, _ => by cases fuel <;> rfl
  | c :: rest, 0, _ => rfl
  | c :: rest, fuel + 1, h => by
    have hor : leadsWith pat (c :: rest) = false ∧ containsSeq pat rest = false := by
      simpa only [containsSeq, Bool.or_eq_false_iff] using h
    show (if leadsWith pat (c :: rest) = true then
        rep ++ replaceAllF pat rep fuel (List.drop (pat.length - 1) rest)
      else c :: replaceAllF pat rep fuel rest) = c :: rest
    rw [hor.1]
    simp only [Bool.false_eq_true, if_false]
    rw [replaceAllF_of_not_contains pat rep rest fuel hor.2]

theorem replaceAll_of_not_contains (pat rep l : List Char)
    (h : containsSeq pat l = false) : replaceAll pat rep l = l :=
  replaceAllF_of_not_contains pat rep l l.length h

theorem getHdr_setHdr_self : ∀ (hs : List (String × List String)) (n : String) (v : List String),
    getHdr (setHdr hs n v) n = some v
  | [], n, v => by
    show getHdr [(n, v)] n = some v
    show (if n = n then some v else getHdr [] n) = some v
    rw [if_pos rfl]
  | (k, w) :: rest, n, v => by
    show getHdr (if k = n then (n, v) :: rest else (k, w) :: setHdr rest n v) n = some v
    by_cases hk : k = n
    · rw [if_pos hk]
      show (if n = n then some v else getHdr rest n) = some v
      rw [if_pos rfl]
    · rw [if_neg hk]
      show (if k = n then some w else getHdr (setHdr rest n v) n) = some v
      rw [if_neg hk]
      exact getHdr_setHdr_self rest n v

theorem getHdr_setHdr_ne : ∀ (hs : List (String × List String)) (n m : String) (v : List String),
    m ≠ n → getHdr (setHdr hs n v) m = getHdr hs m
  | [], n, m, v, h => by
    show getHdr [(n, v)] m = getHdr ([] : List (String × List String)) m
    show (if n = m then some v else getHdr [] m) = getHdr ([] : List (String × List String)) m
    rw [if_neg (fun hh => h hh.symm)]
  | (k, w) :: rest, n, m, v, h => by
    show getHdr (if k = n then (n, v) :: rest else (k, w) :: setHdr rest n v) m =
      getHdr ((k, w) :: rest) m
    by_cases hk : k = n
    · rw [if_pos hk]
      show (if n = m then some v else getHdr rest m) =
        (if k = m then some w else getHdr rest m)
      rw [if_neg (fun hh => h hh.symm), if_neg (fun hh => h (hh.symm.trans hk))]
    · rw [if_neg hk]
      show (if k = m then some w else getHdr (setHdr rest n v) m) =
        (if k = m then some w else getHdr rest m)
      by_cases hkm : k = m
      · rw [if_pos hkm, if_pos hkm]
      · rw [if_neg hkm, if_neg hkm]
        exact getHdr_setHdr_ne rest n m v h

/-! ## Helper lemmas: the cookie segment filter -/

theorem mem_domain_chars_ascii : ∀ x ∈ "domain=".data, x.toNat < 128 := by decide

theorem segKeep_eq_spec : ∀ (seg : List Char) (b : Bool),
    segKeep seg = some b → b = !domainAttr seg := by
  intro seg b h
  unfold segKeep at h
  unfold domainAttr
  by_cases h7 : utf8Len (trimStartWs seg) > 7
  · rw [if_pos h7] at h
    cases htb : takeBytes 7 (trimStartWs seg) with
    | none =>
      rw [htb] at h
      exact absurd h (by simp)
    | some pre =>
      rw [htb] at h
      simp only [Option.some.injEq] at h
      subst h
      congr 1
      rw [decide_eq_decide]
      constructor
      · intro hP
        rcases takeBytes_sound (trimStartWs seg) 7 pre htb with ⟨q, htq, hlen⟩
        have hpre7 : pre.length = 7 := by
          have hm : (pre.map asciiLower).length = 7 := by rw [hP]; rfl
          simpa using hm
        have hq : q ≠ [] := by
          intro h0
          rw [h0, List.append_nil] at htq
          rw [htq] at h7
          omega
        have hlt : 7 < (trimStartWs seg).length := by
          rw [htq, List.length_append, hpre7]
          cases q with
          | nil => exact absurd rfl hq
          | cons a as => simp
        refine ⟨?_, hlt⟩
        rw [htq, List.map_append]
        have h77 : (7 : Nat) = (pre.map asciiLower).length := by simp [hpre7]
        rw [h77, List.take_left, hP]
      · rintro ⟨hq7, hlen7⟩
        have hmt : (List.take 7 (trimStartWs seg)).map asciiLower = "domain=".data := by
          rw [List.map_take, hq7]
        have hascii : ∀ c ∈ List.take 7 (trimStartWs seg), c.toNat < 128 := by
          intro c hc
          have hmem : asciiLower c ∈ "domain=".data := by
            rw [← hmt]
            exact List.mem_map_of_mem asciiLower hc
          exact ascii_of_asciiLower rfl (mem_domain_chars_ascii _ hmem)
        have htake : utf8Len (List.take 7 (trimStartWs seg)) = 7 := by
          rw [utf8Len_of_ascii _ hascii, List.length_take]
          omega
        have hx := takeBytes_exact (List.take 7 (trimStartWs seg))
          (List.drop 7 (trimStartWs seg)) 7 htake
        rw [List.take_append_drop] at hx
        rw [htb] at hx
        rw [Option.some.inj hx, hmt]
  · rw [if_neg h7] at h
    simp only [Option.some.injEq] at h
    subst h
    have hle : (trimStartWs seg).length ≤ utf8Len (trimStartWs seg) :=
      length_le_utf8Len (trimStartWs seg)
    have : ¬ (7 < (trimStartWs seg).length) := by omega
    simp [this]

theorem keepSegs_eq_filter : ∀ (segs out : List (List Char)),
    keepSegs segs = some out → out = segs.filter (fun s => !domainAttr s)
  | [], out, h => by
    simp only [keepSegs, Option.some.injEq] at h
    rw [← h]
    rfl
  | s :: rest, out, h => by
    unfold keepSegs at h
    cases hk : segKeep s with
    | none =>
      rw [hk] at h
      exact absurd h (by simp)
    | some b =>
      rw [hk] at h
      have hb := segKeep_eq_spec s b hk
      cases b with
      | true =>
        rcases Option.map_eq_some'.mp h with ⟨out', hout', rfl⟩
        rw [List.filter_cons, if_pos (by rw [← hb])]
        rw [keepSegs_eq_filter rest out' hout']
      | false =>
        rw [List.filter_cons, if_neg (by rw [← hb]; exact Bool.false_ne_true)]
        exact keepSegs_eq_filter rest out h

theorem segKeep_isSome_of_ascii (seg : List Char) (h : ∀ c ∈ seg, c.toNat < 128) :
    (segKeep seg).isSome = true := by
  unfold segKeep
  have hta : ∀ c ∈ trimStartWs seg, c.toNat < 128 :=
    fun c hc => h c (mem_of_mem_trimStartWs hc)
  by_cases h7 : utf8Len (trimStartWs seg) > 7
  · rw [if_pos h7]
    have hlen : utf8Len (trimStartWs seg) = (trimStartWs seg).length :=
      utf8Len_of_ascii _ hta
    have htake : utf8Len (List.take 7 (trimStartWs seg)) = 7 := by
      rw [utf8Len_of_ascii _ (fun c hc => hta c ((List.take_sublist 7 _).subset hc)),
        List.length_take]
      omega
    have hx := takeBytes_exact (List.take 7 (trimStartWs seg))
      (List.drop 7 (trimStartWs seg)) 7 htake
    rw [List.take_append_drop] at hx
    rw [hx]
    rfl
  · rw [if_neg h7]
    rfl

theorem keepSegs_isSome_of_ascii : ∀ segs : List (List Char),
    (∀ s ∈ segs, ∀ c ∈ s, c.toNat < 128) → (keepSegs segs).isSome = true
  | [], _ => rfl
  | s :: rest, h => by
    unfold keepSegs
    cases hk : segKeep s with
    | none =>
      have hs := segKeep_isSome_of_ascii s (h s (List.mem_cons_self s rest))
      rw [hk] at hs
      exact absurd hs (by simp)
    | some b =>
      cases b with
      | false =>
        exact keepSegs_isSome_of_ascii rest (fun s' hs' => h s' (List.mem_cons_of_mem s hs'))
      | true =>
        rw [Option.isSome_map']
        exact keepSegs_isSome_of_ascii rest (fun s' hs' => h s' (List.mem_cons_of_mem s hs'))

/-! ## C2 — the set-cookie rewrite -/

/-- C2, counterexample.  The claim says the rewrite removes *every* segment
whose attribute name matches `domain=` case-insensitively, the attribute's
value being irrelevant.  The segment `" Domain="` has exactly the attribute
name `domain=` (its trimmed, lowercased text *is* `domain=`, with an empty
value), yet the rewrite keeps it, because the code additionally requires the
trimmed segment to be strictly longer than 7 bytes: on
`"id=1; Domain=; Path=/"` the rewrite returns its input unchanged instead of
`"id=1; Path=/"`. -/
theorem cookie_rewrite_C2_cex :
    (trimStartWs " Domain=".data).map asciiLower = "domain=".data ∧
    cookieVal "id=1; Domain=; Path=/".data = some "id=1; Domain=; Path=/".data ∧
    cookieVal "id=1; Domain=; Path=/".data ≠ some "id=1; Path=/".data := by
  refine ⟨by decide, by decide, by decide⟩

/-- C2 (amended): whenever the per-value set-cookie rewrite returns (does
not panic), its output is the `;`-join of exactly those original segments,
in order and unchanged, whose trimmed form does *not* both exceed 7 bytes
and start with `domain=` case-insensitively (`domainAttr`); in particular a
bare `domain=` segment with an empty value is kept. -/
theorem cookie_rewrite_C2 :
    ∀ (v out : List Char), cookieVal v = some out →
      out = joinSemi ((splitSemi v).filter (fun s => !domainAttr s)) := by
  intro v out h
  unfold cookieVal at h
  cases hk : keepSegs (splitSemi v) with
  | none =>
    rw [hk] at h
    exact absurd h (by simp)
  | some ks =>
    rw [hk] at h
    simp only [Option.map_some', Option.some.injEq] at h
    rw [← h, keepSegs_eq_filter _ ks hk]

/-- C2, witness: the spec's own example
`"id=1; Domain=origin.internal; Path=/; Secure"` rewrites to
`"id=1; Path=/; Secure"`, matching the amended description. -/
theorem cookie_rewrite_C2_w :
    joinSemi ((splitSemi "id=1; Domain=origin.internal; Path=/; Secure".data).filter
      (fun s => !domainAttr s)) = "id=1; Path=/; Secure".data :=
  (cookie_rewrite_C2 "id=1; Domain=origin.internal; Path=/; Secure".data
    "id=1; Path=/; Secure".data (by decide)).symm

/-! ## C10 — the byte-slice panic in the set-cookie rewrite -/

/-- C10: the set-cookie rewrite is total on all-ASCII header values, but on
the value `"id=1; abcdef€y"` — whose second trimmed segment is longer than
7 bytes while byte 7 falls inside the three-byte encoding of `€` — the byte
slice `&i[..7]` taken to test the `domain=` prefix panics (modelled as
`none`) instead of returning a rewritten value. -/
theorem cookie_panic_C10 :
    cookieVal "id=1; abcdef€y".data = none ∧
    (∀ v : List Char, (∀ c ∈ v, c.toNat < 128) → (cookieVal v).isSome = true) := by
  constructor
  · decide
  · intro v hv
    unfold cookieVal
    rw [Option.isSome_map']
    exact keepSegs_isSome_of_ascii _ (fun s hs c hc => hv c (mem_of_mem_splitSemi v s hs c hc))

/-- C10, witness: totality on a concrete all-ASCII value. -/
theorem cookie_panic_C10_w : (cookieVal "id=1; Path=/".data).isSome = true :=
  cookie_panic_C10.2 "id=1; Path=/".data (by decide)

/-! ## Helper lemmas: what each response step preserves -/

theorem rewriteLocationStep_status (table : List (String × Target)) (resp : Response) :
    (rewriteLocationStep table resp).status = resp.status := by
  unfold rewriteLocationStep
  split <;> rfl

theorem rewriteLocationStep_body (table : List (String × Target)) (resp : Response) :
    (rewriteLocationStep table resp).body = resp.body := by
  unfold rewriteLocationStep
  split <;> rfl

theorem rewriteLocationStep_getHdr (table : List (String × Target)) (resp : Response)
    (n : String) (h : n ≠ "location") :
    getHdr (rewriteLocationStep table resp).headers n = getHdr resp.headers n := by
  unfold rewriteLocationStep
  split
  · rfl
  · exact getHdr_setHdr_ne resp.headers "location" n _ h

theorem rewriteRefererStep_status (table : List (String × Target)) (resp : Response) :
    (rewriteRefererStep table resp).status = resp.status := by
  unfold rewriteRefererStep
  split <;> rfl

theorem rewriteRefererStep_body (table : List (String × Target)) (resp : Response) :
    (rewriteRefererStep table resp).body = resp.body := by
  unfold rewriteRefererStep
  split <;> rfl

theorem rewriteRefererStep_getHdr (table : List (String × Target)) (resp : Response)
    (n : String) (h : n ≠ "referer") :
    getHdr (rewriteRefererStep table resp).headers n = getHdr resp.headers n := by
  unfold rewriteRefererStep
  split
  · rfl
  · exact getHdr_setHdr_ne resp.headers "referer" n _ h

theorem rewriteCookieStep_facts (resp r3 : Response) (h : rewriteCookieStep resp = some r3) :
    r3.status = resp.status ∧ r3.body = resp.body ∧
      ∀ n, n ≠ "set-cookie" → getHdr r3.headers n = getHdr resp.headers n := by
  unfold rewriteCookieStep at h
  cases hg : getHdr resp.headers "set-cookie" with
  | none =>
    rw [hg] at h
    obtain rfl := Option.some.inj h
    exact ⟨rfl, rfl, fun n _ => rfl⟩
  | some vals =>
    rw [hg] at h
    rcases Option.map_eq_some'.mp h with ⟨vs, hvs, rfl⟩
    exact ⟨rfl, rfl, fun n hn => getHdr_setHdr_ne resp.headers "set-cookie" n vs hn⟩

theorem rewriteBodyStep_headers (oracle : CodecOracle) (table : List (String × Target))
    (resp : Response) : (rewriteBodyStep oracle table resp).headers = resp.headers := by
  unfold rewriteBodyStep
  split
  · rfl
  · split
    · split <;> rfl
    · rfl

theorem Coder.code_unknown {resp : Response} {e : String} (mode : Mode)
    (h1 : getHdr1 resp.headers "content-encoding" = some e) (h2 : codecOf e = none) :
    Coder.code mode resp = resp := by
  unfold Coder.code
  rw [h1]
  show (match codecOf e with
    | some k => { resp with body := .coded mode k resp.body }
    | none => resp) = resp
  rw [h2]

/-! ## C7 — rewriting is a no-op without occurrences -/

/-- C7: for every domain table and every body text containing no occurrence
of any target's `host_with_port` string, the body-rewrite loop
(`rewriteHosts`, the `for (k, v) in &self.domain` replace loop) returns the
text unchanged — so it is idempotent on such bodies. -/
theorem rewrite_noop_C7 :
    ∀ (table : List (String × Target)) (s : List Char),
      (∀ kv ∈ table, containsSeq kv.2.host_with_port.data s = false) →
      rewriteHosts table s = s
  | [], s, _ => rfl
  | kv :: rest, s, h => by
    show rewriteHosts rest (replaceAll kv.2.host_with_port.data kv.1.data s) = s
    rw [replaceAll_of_not_contains _ _ _ (h kv (List.mem_cons_self kv rest))]
    exact rewrite_noop_C7 rest s (fun kv' hkv' => h kv' (List.mem_cons_of_mem kv hkv'))

/-- C7, witness: a concrete table and a body with no occurrence of
`a.com:8443`. -/
theorem rewrite_noop_C7_w :
    rewriteHosts [("pub.example", ⟨"https", "a.com", 8443⟩)] "no origin mentioned".data =
      "no origin mentioned".data :=
  rewrite_noop_C7 [("pub.example", ⟨"https", "a.com", 8443⟩)] "no origin mentioned".data
    (by decide)

/-! ## C6 — a non-UTF-8 body is emptied, not left untouched -/

/-- C6: evaluating the pipeline at a response whose (unencoded) body is the
invalid-UTF-8 byte `0xFF` under a rewritable content type.  The failure is
indeed only logged and `forward` still returns the response — but contrary
to the claim the returned body is *empty*: `body_string()` takes the body
out of the response before attempting the UTF-8 decode, so on failure the
original bytes are gone.  This contradicts the documented best-effort
intent (`the body is left untouched`), which the surrounding unknown-encoding
path honours — a code bug. -/
theorem body_decode_failure_C6 :
    utf8Decode [255] = none ∧
    processResponse (fun _ _ _ => none) [("pub.example", ⟨"https", "a.com", 8443⟩)]
        ⟨200, [("content-type", ["text/html"])], .raw [255]⟩ =
      some ⟨200, [("content-type", ["text/html"])], .raw []⟩ ∧
    Body.raw ([] : List Nat) ≠ Body.raw [255] :=
  ⟨by decide, by decide, by decide⟩

/-! ## C3 — unknown content-encoding -/

/-- C3, counterexample.  The claim says a response with an unknown
content-encoding passes through "completely unmodified and unrewritten" and
that the body-rewrite step "is not applied".  But the rewrite step only
consults the content *type*: with `content-encoding: zstd` and
`content-type: text/html`, the (still raw) body bytes decode as UTF-8 and
the host substitution *is* applied, changing the body. -/
theorem encoding_passthrough_C3_cex :
    codecOf "zstd" = none ∧
    processResponse (fun _ _ _ => none) [("pub.example", ⟨"https", "a.com", 8443⟩)]
        ⟨200, [("content-encoding", ["zstd"]), ("content-type", ["text/html"])],
          .raw (strBytes "see a.com:8443 here".data)⟩ =
      some ⟨200, [("content-encoding", ["zstd"]), ("content-type", ["text/html"])],
        .raw (strBytes "see pub.example here".data)⟩ ∧
    strBytes "see pub.example here".data ≠ strBytes "see a.com:8443 here".data :=
  ⟨by decide, by decide, by decide⟩

/-- C3 (amended): for a response declaring a content-encoding other than
`gzip`, `br` or `deflate`, both coder passes are identities (the unknown
encoding is only logged), so the pipeline reduces to the header rewrites
followed — for non-304 responses — by the body-rewrite step alone, which is
*still applied* when the content type is rewritable: such a body is not
decoded or re-encoded, but it may be rewritten (or emptied, if it is not
UTF-8). -/
theorem encoding_passthrough_C3 :
    ∀ (oracle : CodecOracle) (table : List (String × Target)) (resp : Response) (e : String),
      getHdr1 resp.headers "content-encoding" = some e → codecOf e = none →
      processResponse oracle table resp =
        (rewriteCookieStep (rewriteRefererStep table (rewriteLocationStep table resp))).map
          (fun r => if r.status = 304 then r else rewriteBodyStep oracle table r) := by
  intro oracle table resp e h1 h2
  unfold processResponse
  cases hc : rewriteCookieStep (rewriteRefererStep table (rewriteLocationStep table resp)) with
  | none => rfl
  | some r3 =>
    have henc : getHdr1 r3.headers "content-encoding" = some e := by
      unfold getHdr1 at h1 ⊢
      rw [(rewriteCookieStep_facts _ _ hc).2.2 "content-encoding" (by decide),
        rewriteRefererStep_getHdr table _ _ (by decide),
        rewriteLocationStep_getHdr table resp _ (by decide)]
      exact h1
    simp only [Option.map_some']
    by_cases h304 : r3.status = 304
    · rw [if_pos h304, if_pos h304]
    · rw [if_neg h304, if_neg h304, Coder.code_unknown .de henc h2]
      have henc5 : getHdr1 (rewriteBodyStep oracle table r3).headers "content-encoding" =
          some e := by
        unfold getHdr1
        rw [rewriteBodyStep_headers]
        exact henc
      rw [Coder.code_unknown .en henc5 h2]

/-- C3, witness: the amended equation at a concrete unknown-encoding
response. -/
theorem encoding_passthrough_C3_w :
    processResponse (fun _ _ _ => none) [("pub.example", ⟨"https", "a.com", 8443⟩)]
        ⟨200, [("content-encoding", ["identity"]), ("content-type", ["text/plain"])],
          .raw [104, 105]⟩ =
      (rewriteCookieStep (rewriteRefererStep [("pub.example", ⟨"https", "a.com", 8443⟩)]
          (rewriteLocationStep [("pub.example", ⟨"https", "a.com", 8443⟩)]
            ⟨200, [("content-encoding", ["identity"]), ("content-type", ["text/plain"])],
              .raw [104, 105]⟩))).map
        (fun r => if r.status = 304 then r
          else rewriteBodyStep (fun _ _ _ => none) [("pub.example", ⟨"https", "a.com", 8443⟩)] r) :=
  encoding_passthrough_C3 (fun _ _ _ => none) [("pub.example", ⟨"https", "a.com", 8443⟩)]
    ⟨200, [("content-encoding", ["identity"]), ("content-type", ["text/plain"])],
      .raw [104, 105]⟩ "identity" (by decide) (by decide)

/-! ## C4 — 304 Not Modified -/

/-- C4: whenever the upstream response has status 304, the pipeline returns
right after the location/referer/set-cookie rewrites: the returned response
keeps the original status and the original body untouched (no decode,
rewrite or re-encode — the body field is bit-identical), and every header
other than those three is unchanged. -/
theorem not_modified_C4 :
    ∀ (oracle : CodecOracle) (table : List (String × Target)) (resp out : Response),
      processResponse oracle table resp = some out → resp.status = 304 →
      out.status = resp.status ∧ out.body = resp.body ∧
      ∀ n : String, n ≠ "location" → n ≠ "referer" → n ≠ "set-cookie" →
        getHdr out.headers n = getHdr resp.headers n := by
  intro oracle table resp out h h304
  unfold processResponse at h
  cases hc : rewriteCookieStep (rewriteRefererStep table (rewriteLocationStep table resp)) with
  | none =>
    rw [hc] at h
    exact absurd h (by simp)
  | some r3 =>
    rw [hc] at h
    have hfacts := rewriteCookieStep_facts _ _ hc
    have hst : r3.status = resp.status := by
      rw [hfacts.1, rewriteRefererStep_status, rewriteLocationStep_status]
    have h' : (if r3.status = 304 then some r3
        else some (Coder.code .en (rewriteBodyStep oracle table (Coder.code .de r3)))) =
        some out := h
    rw [hst, h304, if_pos rfl] at h'
    obtain rfl := Option.some.inj h' 
    refine ⟨hst, ?_, ?_⟩
    · rw [hfacts.2.1, rewriteRefererStep_body, rewriteLocationStep_body]
    · intro n hn1 hn2 hn3
      rw [hfacts.2.2 n hn3, rewriteRefererStep_getHdr table _ n hn2,
        rewriteLocationStep_getHdr table resp n hn1]

/-- C4, witness: a concrete 304 response with a cookie and an etag passes
through unchanged, and its non-rewritten header is preserved. -/
theorem not_modified_C4_w :
    processResponse (fun _ _ _ => none) ([] : List (String × Target))
        ⟨304, [("set-cookie", ["a=b"]), ("etag", ["tag"])], .raw [1, 2, 3]⟩ =
      some ⟨304, [("set-cookie", ["a=b"]), ("etag", ["tag"])], .raw [1, 2, 3]⟩ ∧
    (⟨304, [("set-cookie", ["a=b"]), ("etag", ["tag"])], .raw [1, 2, 3]⟩ : Response).body =
      (⟨304, [("set-cookie", ["a=b"]), ("etag", ["tag"])], .raw [1, 2, 3]⟩ : Response).body :=
  ⟨by decide,
   (not_modified_C4 (fun _ _ _ => none) []
     ⟨304, [("set-cookie", ["a=b"]), ("etag", ["tag"])], .raw [1, 2, 3]⟩
     ⟨304, [("set-cookie", ["a=b"]), ("etag", ["tag"])], .raw [1, 2, 3]⟩
     (by decide) (by decide)).2.1⟩

/-! ## C5 — unmapped or missing domain -/

/-- C5: when the request URL carries no domain, `forward` returns the 500
"missing domain" error, and when the domain is not a key of the domain
table, the 500 "invalid domain, check config file" error — in both cases for
*every* resolution, relay, exchange and codec oracle, i.e. without consulting
any of them (no resolution, retargeting or upstream connection), and
`http_error` produces status 500. -/
theorem routing_errors_C5 :
    ∀ (cfg : Config) (table : List (String × Target))
      (resolve : String → Nat → Option SockAddr) (relayResolve : String → Option SockAddr)
      (exchange : Exchange) (oracle : CodecOracle) (req : Request),
      (req.url.domain = none →
        Forward.forward cfg table resolve relayResolve exchange oracle req =
          some (.error (http_error "missing domain"))) ∧
      (∀ d, req.url.domain = some d → lookupTable table d = none →
        Forward.forward cfg table resolve relayResolve exchange oracle req =
          some (.error (http_error "invalid domain, check config file"))) ∧
      (http_error "missing domain").status = 500 ∧
      (http_error "invalid domain, check config file").status = 500 := by
  intro cfg table resolve relayResolve exchange oracle req
  refine ⟨?_, ?_, rfl, rfl⟩
  · intro h
    unfold Forward.forward
    rw [h]
  · intro d h1 h2
    unfold Forward.forward
    rw [h1]
    show (match lookupTable table d with
      | some t => Forward.request cfg table resolve relayResolve exchange oracle req t
      | none => some (Except.error (http_error "invalid domain, check config file"))) =
      some (Except.error (http_error "invalid domain, check config file"))
    rw [h2]

/-- C5, witness: both error paths at concrete requests, with oracles that
would fail loudly if consulted. -/
theorem routing_errors_C5_w :
    Forward.forward ⟨none⟩ [("pub.example", ⟨"https", "a.com", 8443⟩)] (fun _ _ => none)
        (fun _ => none) (fun _ _ _ => .error (http_error "upstream touched")) (fun _ _ _ => none)
        ⟨"GET", ⟨"http", none, none, "/", none⟩, [], []⟩ =
      some (.error (http_error "missing domain")) ∧
    Forward.forward ⟨none⟩ [("pub.example", ⟨"https", "a.com", 8443⟩)] (fun _ _ => none)
        (fun _ => none) (fun _ _ _ => .error (http_error "upstream touched")) (fun _ _ _ => none)
        ⟨"GET", ⟨"http", some "other.example", none, "/", none⟩, [], []⟩ =
      some (.error (http_error "invalid domain, check config file")) :=
  ⟨(routing_errors_C5 ⟨none⟩ [("pub.example", ⟨"https", "a.com", 8443⟩)] (fun _ _ => none)
      (fun _ => none) (fun _ _ _ => .error (http_error "upstream touched")) (fun _ _ _ => none)
      ⟨"GET", ⟨"http", none, none, "/", none⟩, [], []⟩).1 rfl,
   (routing_errors_C5 ⟨none⟩ [("pub.example", ⟨"https", "a.com", 8443⟩)] (fun _ _ => none)
      (fun _ => none) (fun _ _ _ => .error (http_error "upstream touched")) (fun _ _ _ => none)
      ⟨"GET", ⟨"http", some "other.example", none, "/", none⟩, [], []⟩).2.1
     "other.example" rfl (by decide)⟩

/-! ## C8 — local resolution precedes (and gates) the SOCKS5 relay -/

/-- C8: even with a SOCKS5 relay configured, `Forward.request` resolves the
target's host:port locally first and returns the 500 "invalid target" error
when that local resolution fails, for every relay-resolution, exchange and
codec oracle — the request is never forwarded.  And when everything
resolves, the upstream exchange is consulted only at the name-carrying
`socksName` method (relay address, origin host as a *name*, port), so the
outcome depends on the exchange oracle only through that method. -/
theorem socks5_resolution_C8 :
    (∀ (table : List (String × Target)) (srv : String)
        (resolve : String → Nat → Option SockAddr) (relayResolve : String → Option SockAddr)
        (exchange : Exchange) (oracle : CodecOracle) (req : Request) (d : String) (t : Target),
      req.url.domain = some d → lookupTable table d = some t →
      resolve t.host t.port = none →
      Forward.forward ⟨some srv⟩ table resolve relayResolve exchange oracle req =
        some (.error (http_error "invalid target"))) ∧
    (∀ (table : List (String × Target)) (srv : String)
        (resolve : String → Nat → Option SockAddr) (relayResolve : String → Option SockAddr)
        (ex1 ex2 : Exchange) (oracle : CodecOracle) (req : Request) (d : String) (t : Target)
        (saddr : SockAddr),
      req.url.domain = some d → lookupTable table d = some t →
      relayResolve srv = some saddr →
      (∀ s q, ex1 (.socksName saddr t.host t.port) s q =
        ex2 (.socksName saddr t.host t.port) s q) →
      Forward.forward ⟨some srv⟩ table resolve relayResolve ex1 oracle req =
        Forward.forward ⟨some srv⟩ table resolve relayResolve ex2 oracle req) := by
  constructor
  · intro table srv resolve relayResolve exchange oracle req d t h1 h2 h3
    unfold Forward.forward
    rw [h1]
    show (match lookupTable table d with
      | some t => Forward.request ⟨some srv⟩ table resolve relayResolve exchange oracle req t
      | none => some (Except.error (http_error "invalid domain, check config file"))) =
      some (Except.error (http_error "invalid target"))
    rw [h2]
    show Forward.request ⟨some srv⟩ table resolve relayResolve exchange oracle req t =
      some (Except.error (http_error "invalid target"))
    unfold Forward.request
    rw [h3]
  · intro table srv resolve relayResolve ex1 ex2 oracle req d t saddr h1 h2 h3 hag
    unfold Forward.forward
    rw [h1]
    show (match lookupTable table d with
      | some t => Forward.request ⟨some srv⟩ table resolve relayResolve ex1 oracle req t
      | none => some (Except.error (http_error "invalid domain, check config file"))) =
      (match lookupTable table d with
      | some t => Forward.request ⟨some srv⟩ table resolve relayResolve ex2 oracle req t
      | none => some (Except.error (http_error "invalid domain, check config file")))
    rw [h2]
    show Forward.request ⟨some srv⟩ table resolve relayResolve ex1 oracle req t =
      Forward.request ⟨some srv⟩ table resolve relayResolve ex2 oracle req t
    unfold Forward.request
    cases hr : resolve t.host t.port with
    | none => rfl
    | some addr =>
      cases hf : t.fuse_request req with
      | error e => rfl
      | ok req1 =>
        simp only [h3]
        by_cases hs : t.scheme = "https" ∨ t.scheme = "http"
        · simp only [if_pos hs]
          rw [hag t.scheme req1]
        · simp only [if_neg hs]

/-- C8, witness: with a relay configured and a resolver that fails on the
origin name, the concrete request yields the 500 "invalid target" error even
though the exchange oracle would answer. -/
theorem socks5_resolution_C8_w :
    Forward.forward ⟨some "relay.local:1080"⟩ [("pub.example", ⟨"https", "a.com", 8443⟩)]
        (fun _ _ => none) (fun _ => some "10.0.0.1:1080")
        (fun _ _ _ => .ok ⟨200, [], .raw []⟩) (fun _ _ _ => none)
        ⟨"GET", ⟨"http", some "pub.example", none, "/", none⟩, [], []⟩ =
      some (.error (http_error "invalid target")) :=
  socks5_resolution_C8.1 [("pub.example", ⟨"https", "a.com", 8443⟩)] "relay.local:1080"
    (fun _ _ => none) (fun _ => some "10.0.0.1:1080")
    (fun _ _ _ => .ok ⟨200, [], .raw []⟩) (fun _ _ _ => none)
    ⟨"GET", ⟨"http", some "pub.example", none, "/", none⟩, [], []⟩
    "pub.example" ⟨"https", "a.com", 8443⟩ rfl (by decide) rfl

/-! ## C9 — retargeting a request -/

/-- C9: for a well-formed target (http/https scheme, well-formed host) and
an http/https request URL, `fuse_request` succeeds and returns the request
with exactly two changes: the `host` header replaced by the target's *bare*
host (no port, whatever the port is), and the URL pointed at the target's
scheme, host and port (the explicit port normalized away by the `url` crate
when it is the scheme default, so the URL's effective port is always the
target's).  Method, body, path, query and every other header are unchanged. -/
theorem fuse_request_C9 :
    ∀ (t : Target) (req : Request),
      (t.scheme = "http" ∨ t.scheme = "https") →
      (req.url.scheme = "http" ∨ req.url.scheme = "https") →
      t.host.data ≠ [] → t.host.data.all validHostChar = true →
      t.fuse_request req = .ok
        { req with
          headers := setHdr req.headers "host" [t.host],
          url := { req.url with
            scheme := t.scheme,
            host := some t.host,
            port := if defaultPortFor t.scheme = some t.port then none else some t.port } } ∧
      getHdr (setHdr req.headers "host" [t.host]) "host" = some [t.host] ∧
      (∀ n, n ≠ "host" → getHdr (setHdr req.headers "host" [t.host]) n = getHdr req.headers n) ∧
      Url.portOrDefault { req.url with
          scheme := t.scheme, host := some t.host,
          port := if defaultPortFor t.scheme = some t.port then none else some t.port } =
        some t.port := by
  intro t req hts hrs hh1 hh2
  have hsch : req.url.set_scheme t.scheme = some { req.url with scheme := t.scheme } := by
    unfold Url.set_scheme
    rw [if_pos ⟨hts, hrs⟩]
  have hhost : Url.set_host { req.url with scheme := t.scheme } t.host =
      some { req.url with scheme := t.scheme, host := some t.host } := by
    unfold Url.set_host
    rw [if_pos ⟨hh1, hh2⟩]
  have hport : Url.set_port { req.url with scheme := t.scheme, host := some t.host } t.port =
      some { req.url with
        scheme := t.scheme, host := some t.host,
        port := (if defaultPortFor t.scheme = some t.port then none else some t.port) } := rfl
  refine ⟨?_, getHdr_setHdr_self req.headers "host" [t.host],
    fun n hn => getHdr_setHdr_ne req.headers "host" n [t.host] hn, ?_⟩
  · unfold Target.fuse_request
    simp only [hsch, hhost, hport]
  · by_cases hd : defaultPortFor t.scheme = some t.port
    · rw [if_pos hd]
      exact hd
    · rw [if_neg hd]
      rfl

/-- C9, witness: retargeting a concrete request at `https://a.com:8443`
sets the `host` header to the bare `a.com` while the URL carries the
explicit port. -/
theorem fuse_request_C9_w :
    Target.fuse_request ⟨"https", "a.com", 8443⟩
        ⟨"GET", ⟨"http", some "pub.example", none, "/x", some "q=1"⟩,
          [("host", ["pub.example"]), ("accept", ["*"])], [7]⟩ =
      .ok ⟨"GET", ⟨"https", some "a.com", some 8443, "/x", some "q=1"⟩,
        [("host", ["a.com"]), ("accept", ["*"])], [7]⟩ :=
  (fuse_request_C9 ⟨"https", "a.com", 8443⟩
    ⟨"GET", ⟨"http", some "pub.example", none, "/x", some "q=1"⟩,
      [("host", ["pub.example"]), ("accept", ["*"])], [7]⟩
    (by decide) (by decide) (by decide) (by decide)).1

/-! ## Helper lemmas: origin-spec parsing -/

theorem leadsWith_append_self : ∀ (pat rest : List Char), leadsWith pat (pat ++ rest) = true
  | [], _ => rfl
  | p :: ps, rest => by
    show (p == p && leadsWith ps (ps ++ rest)) = true
    rw [leadsWith_append_self ps rest, beq_self_eq_true]
    rfl

theorem containsSeq_of_leadsWith : ∀ {pat l : List Char},
    leadsWith pat l = true → containsSeq pat l = true := by
  intro pat l h
  cases l with
  | nil => exact h
  | cons c rest =>
    show (leadsWith pat (c :: rest) || containsSeq pat rest) = true
    rw [h]
    rfl

theorem containsSeq_cons (pat : List Char) (c : Char) (rest : List Char)
    (h : containsSeq pat rest = true) : containsSeq pat (c :: rest) = true := by
  show (leadsWith pat (c :: rest) || containsSeq pat rest) = true
  rw [h, Bool.or_true]

theorem containsSeq_sep : ∀ (pre rest : List Char),
    containsSeq [':', '/', '/'] (pre ++ ':' :: '/' :: '/' :: rest) = true
  | [], rest => containsSeq_of_leadsWith (leadsWith_append_self [':', '/', '/'] rest)
  | c :: pre, rest => containsSeq_cons _ c _ (containsSeq_sep pre rest)

theorem findSchemeSep_append : ∀ (sch rest : List Char), (∀ c ∈ sch, c ≠ ':') →
    findSchemeSep (sch ++ ':' :: '/' :: '/' :: rest) = some (sch, rest)
  | [], rest, _ => by
    show findSchemeSep (':' :: '/' :: '/' :: rest) = some ([], rest)
    unfold findSchemeSep
    rw [if_pos ⟨rfl, leadsWith_append_self ['/', '/'] rest⟩]
    rfl
  | c :: sch, rest, h => by
    show findSchemeSep (c :: (sch ++ ':' :: '/' :: '/' :: rest)) = some (c :: sch, rest)
    unfold findSchemeSep
    rw [if_neg (fun hc => (h c (List.mem_cons_self c sch)) hc.1),
      findSchemeSep_append sch rest (fun x hx => h x (List.mem_cons_of_mem c hx))]
    rfl

theorem splitHostPort_append : ∀ (host ds : List Char), (∀ c ∈ host, c ≠ ':') →
    splitHostPort (host ++ ':' :: ds) = (host, some ds)
  | [], ds, _ => by
    show splitHostPort (':' :: ds) = ([], some ds)
    unfold splitHostPort
    rw [if_pos rfl]
  | c :: host, ds, h => by
    show splitHostPort (c :: (host ++ ':' :: ds)) = (c :: host, some ds)
    unfold splitHostPort
    rw [if_neg (h c (List.mem_cons_self c host)),
      splitHostPort_append host ds (fun x hx => h x (List.mem_cons_of_mem c hx))]

theorem urlParseParts_eval (sch host ds : List Char) (d : Char) (p : Nat)
    (hs1 : sch ≠ []) (hs2 : sch.all schemeChar = true)
    (hh1 : host ≠ []) (hh2 : host.all validHostChar = true)
    (hp : parseNum 0 (d :: ds) = some p) (hlt : p < 65536) :
    urlParseParts (sch ++ ':' :: '/' :: '/' :: (host ++ ':' :: d :: ds)) =
      some ⟨String.mk sch, String.mk host, p⟩ := by
  have hscol : ∀ c ∈ sch, c ≠ ':' := by
    intro c hc hceq
    have hall := List.all_eq_true.mp hs2 c hc
    rw [hceq] at hall
    exact absurd hall (by decide)
  have hhcol : ∀ c ∈ host, c ≠ ':' := by
    intro c hc hceq
    have hall := List.all_eq_true.mp hh2 c hc
    rw [hceq] at hall
    exact absurd hall (by decide)
  have hsep := findSchemeSep_append sch (host ++ ':' :: d :: ds) hscol
  have hsplit := splitHostPort_append host (d :: ds) hhcol
  unfold urlParseParts
  simp only [hsep, hsplit, hp]
  rw [if_pos ⟨hs1, hs2⟩, if_pos ⟨hh1, hh2⟩, if_pos hlt]

/-! ## C1 — parse / host_with_port round trip -/

/-- C1: for every valid origin spec with an explicit scheme (`http` or
`https`), canonical host and explicit (nonempty, in-range) port text,
`Target::try_from` parses it into the evident target, and `host_with_port`
renders the bare host exactly when the parsed port is the scheme's default
(80 for http, 443 for https) and `host:port` otherwise. -/
theorem target_roundtrip_C1 :
    ∀ (sname : String) (host ds : List Char) (d : Char) (p : Nat),
      (sname = "http" ∨ sname = "https") →
      host ≠ [] → host.all validHostChar = true →
      parseNum 0 (d :: ds) = some p → p < 65536 →
      Target.try_from (String.mk (sname.data ++ ':' :: '/' :: '/' :: (host ++ ':' :: d :: ds))) =
        some ⟨sname, String.mk host, p⟩ ∧
      Target.host_with_port ⟨sname, String.mk host, p⟩ =
        (if defaultPortFor sname = some p then String.mk host
         else String.mk host ++ ":" ++ Nat.repr p) := by
  intro sname host ds d p hsch hh1 hh2 hp hlt
  constructor
  · unfold Target.try_from
    rw [if_pos (containsSeq_sep sname.data (host ++ ':' :: d :: ds))]
    rcases hsch with rfl | rfl
    · exact urlParseParts_eval "http".data host ds d p (by decide) (by decide) hh1 hh2 hp hlt
    · exact urlParseParts_eval "https".data host ds d p (by decide) (by decide) hh1 hh2 hp hlt
  · rcases hsch with rfl | rfl
    · unfold Target.host_with_port
      by_cases h80 : p = 80
      · rw [if_pos (Or.inl ⟨rfl, h80⟩), if_pos (by rw [h80]; rfl)]
      · rw [if_neg (fun hor => hor.elim (fun hc => h80 hc.2)
            (fun hc => absurd (show "http" = "https" from hc.1) (by decide)))]
        have hd : defaultPortFor "http" = some 80 := rfl
        rw [hd, if_neg (fun hc => h80 (Option.some.inj hc).symm)]
    · unfold Target.host_with_port
      by_cases h443 : p = 443
      · rw [if_pos (Or.inr ⟨rfl, h443⟩), if_pos (by rw [h443]; rfl)]
      · rw [if_neg (fun hor => hor.elim
            (fun hc => absurd (show "https" = "http" from hc.1) (by decide))
            (fun hc => h443 hc.2))]
        have hd : defaultPortFor "https" = some 443 := rfl
        rw [hd, if_neg (fun hc => h443 (Option.some.inj hc).symm)]

/-- C1, witness: the spec's two examples.  `"https://a.com:443"` parses to a
target whose `host_with_port` is the bare `"a.com"` (443 is the https
default), and `"https://a.com:8443"` to one rendering `"a.com:8443"`. -/
theorem target_roundtrip_C1_w :
    Target.try_from "https://a.com:443" = some ⟨"https", "a.com", 443⟩ ∧
    Target.host_with_port ⟨"https", "a.com", 443⟩ = "a.com" ∧
    Target.try_from "https://a.com:8443" = some ⟨"https", "a.com", 8443⟩ ∧
    Target.host_with_port ⟨"https", "a.com", 8443⟩ = "a.com:8443" :=
  ⟨(target_roundtrip_C1 "https" "a.com".data "43".data '4' 443 (Or.inr rfl)
      (by decide) (by decide) (by decide) (by decide)).1,
   (target_roundtrip_C1 "https" "a.com".data "43".data '4' 443 (Or.inr rfl)
      (by decide) (by decide) (by decide) (by decide)).2,
   (target_roundtrip_C1 "https" "a.com".data "443".data '8' 8443 (Or.inr rfl)
      (by decide) (by decide) (by decide) (by decide)).1,
   (target_roundtrip_C1 "https" "a.com".data "443".data '8' 8443 (Or.inr rfl)
      (by decide) (by decide) (by decide) (by decide)).2⟩
